import Mathlib

set_option maxHeartbeats 1000000

/-
Shallow embedding of the `/api/proxy-manifest` Express handler of the
ipTV server (file `server` source, function `startServer`).  Strings are
modelled as `List Char`; the handler's interactions with the outside
world (the awaited `fetch`, the body read, `new URL`) are passed in as
explicit `Except` values, exceptions being the `.error` constructor.
-/

/-- Characters of a string literal. -/
def toL (s : String) : List Char := s.data

/-- JS `String.prototype.startsWith`, on character lists. -/
def hasPrefixL : List Char → List Char → Bool
  | [], _ => true
  | _ :: _, [] => false
  | p :: ps, c :: cs => p == c && hasPrefixL ps cs

/-- JS `String.prototype.includes`, on character lists. -/
def listContains (pat : List Char) : List Char → Bool
  | [] => pat.isEmpty
  | c :: cs => hasPrefixL pat (c :: cs) || listContains pat cs

/-- Whitespace stripped by `String.prototype.trim` (the forms that occur
in HLS manifests: space, tab, LF, CR). -/
def isWsChar (c : Char) : Bool := c == ' ' || c == '\t' || c == '\n' || c == '\r'

/-- JS `line.trim()`, on character lists. -/
def trimL (l : List Char) : List Char :=
  ((l.dropWhile isWsChar).reverse.dropWhile isWsChar).reverse

/-- JS `text.split('\n')`, on character lists. -/
def splitNl : List Char → List (List Char)
  | [] => [[]]
  | c :: rest =>
    if c = '\n' then [] :: splitNl rest
    else
      match splitNl rest with
      | [] => [[c]]
      | hd :: tl => (c :: hd) :: tl

/-- JS `lines.join('\n')`, on character lists. -/
def joinNl : List (List Char) → List Char
  | [] => []
  | [l] => l
  | l :: ls => l ++ '\n' :: joinNl ls

/-- The handler's `parsedUrl.pathname.substring(0, parsedUrl.pathname.lastIndexOf('/') + 1)`:
the path up to and including its last slash, empty when the path has no slash. -/
def dirPart (path : List Char) : List Char :=
  ((path.reverse).dropWhile (fun c => c != '/')).reverse

/-- Characters `encodeURIComponent` leaves unescaped
(ASCII letters, digits, and `- _ . ! ~ * ' ( )`). -/
def isUnescapedEC (c : Char) : Bool :=
  c.isAlpha || c.isDigit ||
  c == '-' || c == '_' || c == '.' || c == '!' || c == '~' ||
  c == '*' || c == '\'' || c == '(' || c == ')'

/-- Upper-case hexadecimal digit for `n < 16`. -/
def hexDigit (n : Nat) : Char :=
  if n < 10 then Char.ofNat (48 + n) else Char.ofNat (55 + n)

/-- UTF-8 bytes of a code point. -/
def utf8Bytes (n : Nat) : List Nat :=
  if n < 128 then [n]
  else if n < 2048 then [192 + n / 64, 128 + n % 64]
  else if n < 65536 then [224 + n / 4096, 128 + n / 64 % 64, 128 + n % 64]
  else [240 + n / 262144, 128 + n / 4096 % 64, 128 + n / 64 % 64, 128 + n % 64]

/-- Percent-escape of one character (UTF-8 bytes, upper-case hex). -/
def pctChar (c : Char) : List Char :=
  (utf8Bytes c.toNat).foldr (fun b acc => '%' :: hexDigit (b / 16) :: hexDigit (b % 16) :: acc) []

/-- JS `encodeURIComponent`, on character lists. -/
def encodeUC : List Char → List Char
  | [] => []
  | c :: cs => (if isUnescapedEC c then [c] else pctChar c) ++ encodeUC cs

/-- Value of one hexadecimal digit character. -/
def hexVal (c : Char) : Option Nat :=
  if '0' ≤ c ∧ c ≤ '9' then some (c.toNat - 48)
  else if 'A' ≤ c ∧ c ≤ 'F' then some (c.toNat - 55)
  else if 'a' ≤ c ∧ c ≤ 'f' then some (c.toNat - 87)
  else none

/-- Modelled from the spec: standard percent-decoding of a query-parameter
value (`decodeURIComponent`, as the server framework applies it to the
`url` parameter when a rewritten manifest is fetched back through the
proxy; this decoding is not part of the repository's own source).  The
model covers single-byte (ASCII) escapes; multi-byte UTF-8 escape
sequences are outside the modelled fragment and yield `none`. -/
def pctDecode : List Char → Option (List Char)
  | [] => some []
  | c :: cs =>
    if c = '%' then
      match cs with
      | h1 :: h0 :: rest =>
        match hexVal h1, hexVal h0 with
        | some a, some b =>
          if 16 * a + b < 128 then
            match pctDecode rest with
            | some ds => some (Char.ofNat (16 * a + b) :: ds)
            | none => none
          else none
        | _, _ => none
      | _ => none
    else
      match pctDecode cs with
      | some ds => some (c :: ds)
      | none => none

/-- One attempted match of the regex `URI="([^"]+)"` at the head of the
list: on success, the captured (non-empty, quote-free) value and the
remainder after the closing quote. -/
def matchAttr : List Char → Option (List Char × List Char)
  | 'U' :: 'R' :: 'I' :: '=' :: '"' :: rest =>
    match rest.dropWhile (fun c => c != '"') with
    | '"' :: rest2 =>
      if (rest.takeWhile (fun c => c != '"')).isEmpty then none
      else some (rest.takeWhile (fun c => c != '"'), rest2)
    | _ => none
  | _ => none

/-- Fueled scanner implementing the global replace
`trimmed.replace(/URI="([^"]+)"/g, f)`: leftmost matches are replaced and
scanning resumes after each match; `f` maps the captured group to the full
replacement text. -/
def repAux (f : List Char → List Char) : Nat → List Char → List Char
  | _, [] => []
  | 0, l => l
  | fuel + 1, c :: cs =>
    match matchAttr (c :: cs) with
    | some (cap, rest) => f cap ++ repAux f fuel rest
    | none => c :: repAux f fuel cs

/-- JS `s.replace(/URI="([^"]+)"/g, f)` on character lists (the fuel
`s.length` always suffices, since every step strictly shortens the list). -/
def replaceURIAttrs (f : List Char → List Char) (l : List Char) : List Char :=
  repAux f l.length l

/-- URL resolution of a `URI="..."` attribute value, as written inline in
the tag branch of the handler (`absoluteAttrUrl`). -/
def resolveAttrRef (origin baseUrl p1 : List Char) : List Char :=
  if hasPrefixL (toL "http") p1 then p1
  else if hasPrefixL (toL "/") p1 then origin ++ p1
  else baseUrl ++ p1

/-- URL resolution of a media-reference line, as written inline in the
media branch of the handler (`absoluteUrl`). -/
def resolveMediaRef (origin baseUrl trimmed : List Char) : List Char :=
  if hasPrefixL (toL "http") trimmed then trimmed
  else if hasPrefixL (toL "/") trimmed then origin ++ trimmed
  else baseUrl ++ trimmed

/-- Replacement text emitted for one matched `URI="..."` attribute. -/
def attrRepl (origin baseUrl : List Char) (p1 : List Char) : List Char :=
  toL "URI=\"/api/proxy-manifest?url=" ++ encodeUC (resolveAttrRef origin baseUrl p1) ++ ['"']

/-- One step of the rewrite loop `lines.map(line => ...)` of the handler. -/
def rewriteLineL (origin baseUrl line : List Char) : List Char :=
  let trimmed := trimL line
  if trimmed.isEmpty || hasPrefixL (toL "#") trimmed then
    if listContains (toL "URI=\"") trimmed then
      replaceURIAttrs (attrRepl origin baseUrl) trimmed
    else line
  else
    toL "/api/proxy-manifest?url=" ++ encodeUC (resolveMediaRef origin baseUrl trimmed)

/-- The whole manifest rewrite of the handler: compute `baseUrl` from the
parsed target URL, split the body on newlines, rewrite each line, rejoin
with newlines. -/
def rewriteManifestL (origin pathname text : List Char) : List Char :=
  joinNl ((splitNl text).map (rewriteLineL origin (origin ++ dirPart pathname)))

/-- Components of `new URL(url)` used by the handler. -/
structure UrlParts where
  origin : List Char
  pathname : List Char
deriving DecidableEq

deriving instance DecidableEq for Except

/-- The upstream `fetch` response as the handler observes it: status,
the four headers it reads, and the awaited body read
(`text()` / `arrayBuffer()`), whose failure is an exception. -/
structure UpstreamResponse where
  status : Nat
  contentType : Option (List Char)
  contentRange : Option (List Char)
  acceptRanges : Option (List Char)
  contentLength : Option (List Char)
  bodyResult : Except (List Char) (List Char)
deriving DecidableEq

/-- The HTTP response the handler produces: status code, headers in the
order they are set, body. -/
structure HttpResponse where
  status : Nat
  headers : List (List Char × List Char)
  body : List Char
deriving DecidableEq

/-- `response.ok` of the fetch API: status in the 2xx range. -/
def statusOk (s : Nat) : Bool := 200 ≤ s && s < 300

/-- Headers of the upstream fetch (`fetchOptions.headers`), with the
caller's `Range` header forwarded verbatim when present. -/
def upstreamHeaders (rangeH : Option (List Char)) : List (List Char × List Char) :=
  [(toL "User-Agent", toL "Mozilla/5.0 (Windows NT 10.0; Win64; x64) AppleWebKit/537.36 (KHTML, like Gecko) Chrome/91.0.4472.124 Safari/537.36"),
   (toL "Accept", toL "*/*"),
   (toL "Accept-Language", toL "en-US,en;q=0.9")] ++
  (match rangeH with
   | some r => [(toL "Range", r)]
   | none => [])

/-- The handler's classification test for manifest text:
`contentType.includes("mpegurl") || contentType.includes("apple.mpegurl") || url.includes(".m3u8")`. -/
def isManifestResponse (contentType url : List Char) : Bool :=
  listContains (toL "mpegurl") contentType ||
  listContains (toL "apple.mpegurl") contentType ||
  listContains (toL ".m3u8") url

/-- Headers copied verbatim from the upstream response when present
(`Content-Range`, `Accept-Ranges`, `Content-Length`), in the order the
handler sets them. -/
def passHeaders (r : UpstreamResponse) : List (List Char × List Char) :=
  (match r.contentRange with | some v => [(toL "Content-Range", v)] | none => []) ++
  (match r.acceptRanges with | some v => [(toL "Accept-Ranges", v)] | none => []) ++
  (match r.contentLength with | some v => [(toL "Content-Length", v)] | none => [])

/-- Headers the binary branch sets after the pass-through headers. -/
def binaryHeaders (ct : List Char) : List (List Char × List Char) :=
  [(toL "Content-Type", ct),
   (toL "Access-Control-Allow-Origin", toL "*"),
   (toL "Cache-Control", toL "public, max-age=3600")]

/-- Headers the manifest branch sets after the pass-through headers. -/
def manifestHeaders : List (List Char × List Char) :=
  [(toL "Content-Type", toL "application/vnd.apple.mpegurl"),
   (toL "Access-Control-Allow-Origin", toL "*")]

/-- The `/api/proxy-manifest` handler.  `url` is the `url` query
parameter (`none` when absent; the empty string is falsy in the guard,
exactly as `!url`).  `fetchResult` stands for the awaited
`fetch(url, fetchOptions)`, `parseResult` for `new URL(url)`; a thrown
exception is the `.error` constructor carrying the error message, and
all of them land in the single catch block as a 500 response.  The
success paths never set a status, so the framework default 200 applies. -/
def handleProxyManifest (url : Option (List Char))
    (fetchResult : Except (List Char) UpstreamResponse)
    (parseResult : Except (List Char) UrlParts) : HttpResponse :=
  match url with
  | none => ⟨400, [], toL "URL required"⟩
  | some u =>
    if u.isEmpty then ⟨400, [], toL "URL required"⟩
    else
      match fetchResult with
      | .error e => ⟨500, [], e⟩
      | .ok resp =>
        if !statusOk resp.status && resp.status != 206 then
          ⟨resp.status, [], toL "Target returned " ++ (Nat.repr resp.status).data⟩
        else
          if isManifestResponse (resp.contentType.getD []) u then
            match resp.bodyResult with
            | .error e => ⟨500, passHeaders resp, e⟩
            | .ok text =>
              match parseResult with
              | .error e => ⟨500, passHeaders resp, e⟩
              | .ok parts =>
                ⟨200, passHeaders resp ++ manifestHeaders,
                 rewriteManifestL parts.origin parts.pathname text⟩
          else
            match resp.bodyResult with
            | .error e => ⟨500, passHeaders resp ++ binaryHeaders (resp.contentType.getD []), e⟩
            | .ok bytes =>
              ⟨200, passHeaders resp ++ binaryHeaders (resp.contentType.getD []), bytes⟩

/-- Stated from the spec's words, for comparison (claim C1): the three-way
resolution rule with the base directory spelled out as origin plus the
target path up to and including its last slash. -/
def resolveSpecRule (origin pathname ref : List Char) : List Char :=
  if hasPrefixL (toL "http") ref then ref
  else if hasPrefixL (toL "/") ref then origin ++ ref
  else (origin ++ dirPart pathname) ++ ref

/-- Stated from the spec's words, for comparison (claim C4):
`url` ends with the given characters. -/
def endsWithL (tail l : List Char) : Bool :=
  hasPrefixL tail.reverse l.reverse

theorem hasPrefixL_iff (p l : List Char) : hasPrefixL p l = true ↔ ∃ t, l = p ++ t := by
  induction p generalizing l with
  | nil => simp [hasPrefixL]
  | cons a as ih =>
    cases l with
    | nil => simp [hasPrefixL]
    | cons c cs =>
      simp only [hasPrefixL, Bool.and_eq_true, beq_iff_eq, ih, List.cons_append,
        List.cons.injEq]
      constructor
      · rintro ⟨rfl, t, rfl⟩; exact ⟨t, rfl, rfl⟩
      · rintro ⟨t, rfl, rfl⟩; exact ⟨rfl, t, rfl⟩

theorem listContains_iff (p l : List Char) :
    listContains p l = true ↔ ∃ pre post, l = pre ++ (p ++ post) := by
  induction l with
  | nil =>
    simp only [listContains, List.isEmpty_iff]
    constructor
    · rintro rfl; exact ⟨[], [], rfl⟩
    · rintro ⟨pre, post, h⟩
      rcases List.append_eq_nil.mp h.symm with ⟨-, h2⟩
      exact (List.append_eq_nil.mp h2).1
  | cons c cs ih =>
    simp only [listContains, Bool.or_eq_true, hasPrefixL_iff, ih]
    constructor
    · rintro (⟨t, ht⟩ | ⟨pre, post, hp⟩)
      · exact ⟨[], t, by simp [ht]⟩
      · exact ⟨c :: pre, post, by simp [hp]⟩
    · rintro ⟨pre, post, hp⟩
      cases pre with
      | nil => exact Or.inl ⟨post, by simpa using hp⟩
      | cons x xs =>
        simp only [List.cons_append, List.cons.injEq] at hp
        exact Or.inr ⟨xs, post, hp.2⟩

theorem listContains_sub (a p l : List Char) (h : listContains (a ++ p) l = true) :
    listContains p l = true := by
  rcases (listContains_iff _ _).mp h with ⟨pre, post, hp⟩
  exact (listContains_iff _ _).mpr ⟨pre ++ a, post, by simp [hp, List.append_assoc]⟩

theorem takeWhile_all_stop (p : Char → Bool) (xs : List Char) (y : Char) (ys : List Char)
    (h : ∀ a ∈ xs, p a = true) (hy : p y = false) :
    (xs ++ y :: ys).takeWhile p = xs := by
  induction xs with
  | nil => simp [List.takeWhile_cons, hy]
  | cons a as ih =>
    have ha : p a = true := h a (List.mem_cons_self a as)
    simp only [List.cons_append, List.takeWhile_cons, ha, if_true]
    rw [ih (fun b hb => h b (List.mem_cons_of_mem a hb))]

theorem dropWhile_all_stop (p : Char → Bool) (xs : List Char) (y : Char) (ys : List Char)
    (h : ∀ a ∈ xs, p a = true) (hy : p y = false) :
    (xs ++ y :: ys).dropWhile p = y :: ys := by
  induction xs with
  | nil => simp [List.dropWhile_cons, hy]
  | cons a as ih =>
    have ha : p a = true := h a (List.mem_cons_self a as)
    simp only [List.cons_append, List.dropWhile_cons, ha, if_true]
    exact ih (fun b hb => h b (List.mem_cons_of_mem a hb))

theorem matchAttr_build (cap rest : List Char) (h1 : cap ≠ [])
    (h2 : ∀ c ∈ cap, (c != '"') = true) :
    matchAttr ('U' :: 'R' :: 'I' :: '=' :: '"' :: (cap ++ '"' :: rest)) = some (cap, rest) := by
  have ht : (cap ++ '"' :: rest).takeWhile (fun c => c != '"') = cap :=
    takeWhile_all_stop _ _ _ _ h2 (by decide)
  have hd : (cap ++ '"' :: rest).dropWhile (fun c => c != '"') = '"' :: rest :=
    dropWhile_all_stop _ _ _ _ h2 (by decide)
  rcases List.exists_cons_of_ne_nil h1 with ⟨a, as, rfl⟩
  rw [matchAttr, hd, ht]
  simp

theorem matchAttr_ne (c : Char) (cs : List Char) (h : c ≠ 'U') :
    matchAttr (c :: cs) = none := by
  rw [matchAttr.eq_def]
  split
  · next heq => exact absurd (by injection heq) h
  · rfl

theorem matchAttr_length (l cap rest : List Char) (h : matchAttr l = some (cap, rest)) :
    rest.length + 6 ≤ l.length := by
  rw [matchAttr.eq_def] at h
  split at h
  · next rest0 =>
    set p : Char → Bool := fun c => c != '"' with hp
    split at h
    · next rest2 heq =>
      split at h
      · exact absurd h (by simp)
      · injection h with h'
        injection h' with hcap hrest
        have hlen : (rest0.takeWhile p).length + (rest0.dropWhile p).length = rest0.length := by
          rw [← List.length_append, List.takeWhile_append_dropWhile]
        rw [heq] at hlen
        subst hrest
        simp only [List.length_cons] at hlen ⊢
        omega
    · exact absurd h (by simp)
  · exact absurd h (by simp)

theorem repAux_fuel (f : List Char → List Char) :
    ∀ n m l, l.length ≤ n → l.length ≤ m → repAux f n l = repAux f m l := by
  intro n
  induction n with
  | zero =>
    intro m l h1 _
    have hl : l = [] := List.eq_nil_of_length_eq_zero (Nat.le_zero.mp h1)
    subst hl
    cases m <;> rfl
  | succ n ih =>
    intro m l h1 h2
    cases l with
    | nil => cases m <;> rfl
    | cons c cs =>
      cases m with
      | zero => simp at h2
      | succ m' =>
        simp only [repAux]
        cases hm : matchAttr (c :: cs) with
        | none =>
          have := ih m' cs (by simp at h1; omega) (by simp at h2; omega)
          show c :: repAux f n cs = c :: repAux f m' cs
          rw [this]
        | some pr =>
          rcases pr with ⟨cap, rest⟩
          have hlen := matchAttr_length _ _ _ hm
          simp only [List.length_cons] at h1 h2 hlen
          have := ih m' rest (by omega) (by omega)
          show f cap ++ repAux f n rest = f cap ++ repAux f m' rest
          rw [this]

theorem replace_nil (f : List Char → List Char) : replaceURIAttrs f [] = [] := rfl

theorem replace_skip (f : List Char → List Char) (c : Char) (cs : List Char)
    (h : c ≠ 'U') :
    replaceURIAttrs f (c :: cs) = c :: replaceURIAttrs f cs := by
  unfold replaceURIAttrs
  simp only [List.length_cons, repAux, matchAttr_ne c cs h]

theorem replace_match (f : List Char → List Char) (cap rest : List Char)
    (h1 : cap ≠ []) (h2 : ∀ c ∈ cap, (c != '"') = true) :
    replaceURIAttrs f ('U' :: 'R' :: 'I' :: '=' :: '"' :: (cap ++ '"' :: rest)) =
      f cap ++ replaceURIAttrs f rest := by
  unfold replaceURIAttrs
  simp only [List.length_cons, repAux, matchAttr_build cap rest h1 h2]
  congr 1
  exact repAux_fuel f _ _ rest (by simp; omega) (le_refl _)

theorem splitNl_ne_nil (l : List Char) : splitNl l ≠ [] := by
  cases l with
  | nil => simp [splitNl]
  | cons c rest =>
    rw [splitNl]
    split
    · simp
    · cases hs : splitNl rest <;> simp

theorem joinNl_cons_cons (c : Char) (hd : List Char) (tl : List (List Char)) :
    joinNl ((c :: hd) :: tl) = c :: joinNl (hd :: tl) := by
  cases tl <;> simp [joinNl]

theorem joinNl_splitNl (l : List Char) : joinNl (splitNl l) = l := by
  induction l with
  | nil => rfl
  | cons c rest ih =>
    rw [splitNl]
    split
    · next h =>
      subst h
      cases hs : splitNl rest with
      | nil => exact absurd hs (splitNl_ne_nil rest)
      | cons hd tl =>
        rw [hs] at ih
        simp [joinNl, ih]
    · next h =>
      cases hs : splitNl rest with
      | nil => exact absurd hs (splitNl_ne_nil rest)
      | cons hd tl =>
        rw [hs] at ih
        simp only [joinNl_cons_cons, ih]

theorem mapIdOn {α : Type} (f : α → α) (l : List α) (h : ∀ a ∈ l, f a = a) :
    l.map f = l := by
  induction l with
  | nil => rfl
  | cons a as ih =>
    simp only [List.map_cons, h a (List.mem_cons_self a as)]
    rw [ih (fun b hb => h b (List.mem_cons_of_mem a hb))]

theorem hexVal_hexDigit : ∀ a, a < 16 → hexVal (hexDigit a) = some a := by decide

theorem isUnescapedEC_ne_pct (c : Char) (h : isUnescapedEC c = true) : ¬ c = '%' := by
  intro hc
  subst hc
  exact absurd h (by decide)

theorem pctChar_ascii (c : Char) (hc : c.toNat < 128) :
    pctChar c = ['%', hexDigit (c.toNat / 16), hexDigit (c.toNat % 16)] := by
  simp [pctChar, utf8Bytes, hc]

theorem pctDecode_cons_lit (c : Char) (cs : List Char) (h : ¬ c = '%')
    (ds : List Char) (hd : pctDecode cs = some ds) :
    pctDecode (c :: cs) = some (c :: ds) := by
  rw [pctDecode.eq_def]
  simp only [if_neg h, hd]

theorem pctDecode_esc (c : Char) (hc : c.toNat < 128) (cs ds : List Char)
    (hd : pctDecode cs = some ds) :
    pctDecode ('%' :: hexDigit (c.toNat / 16) :: hexDigit (c.toNat % 16) :: cs) =
      some (c :: ds) := by
  have h1 : c.toNat / 16 < 16 := Nat.div_lt_of_lt_mul (by omega)
  have h2 : c.toNat % 16 < 16 := Nat.mod_lt _ (by norm_num)
  have hmix : 16 * (c.toNat / 16) + c.toNat % 16 = c.toNat := Nat.div_add_mod c.toNat 16
  rw [pctDecode.eq_def]
  simp only [if_pos rfl, hexVal_hexDigit _ h1, hexVal_hexDigit _ h2, hmix, hc, if_pos, hd,
    Char.ofNat_toNat]

theorem pctDecode_encodeUC (l : List Char) (h : ∀ c ∈ l, c.toNat < 128) :
    pctDecode (encodeUC l) = some l := by
  induction l with
  | nil => rfl
  | cons c cs ih =>
    have hc : c.toNat < 128 := h c (List.mem_cons_self c cs)
    have ihs := ih (fun b hb => h b (List.mem_cons_of_mem c hb))
    rw [encodeUC]
    by_cases hu : isUnescapedEC c = true
    · rw [if_pos hu]
      exact pctDecode_cons_lit c (encodeUC cs) (isUnescapedEC_ne_pct c hu) cs ihs
    · rw [if_neg hu, pctChar_ascii c hc]
      exact pctDecode_esc c hc (encodeUC cs) cs ihs

theorem ascii_resolveMedia (o b r : List Char)
    (ho : ∀ c ∈ o, c.toNat < 128) (hb : ∀ c ∈ b, c.toNat < 128)
    (hr : ∀ c ∈ r, c.toNat < 128) :
    ∀ c ∈ resolveMediaRef o b r, c.toNat < 128 := by
  unfold resolveMediaRef
  split_ifs <;> intro c hc
  · exact hr c hc
  · rcases List.mem_append.mp hc with h | h
    · exact ho c h
    · exact hr c h
  · rcases List.mem_append.mp hc with h | h
    · exact hb c h
    · exact hr c h

theorem ascii_resolveAttr (o b r : List Char)
    (ho : ∀ c ∈ o, c.toNat < 128) (hb : ∀ c ∈ b, c.toNat < 128)
    (hr : ∀ c ∈ r, c.toNat < 128) :
    ∀ c ∈ resolveAttrRef o b r, c.toNat < 128 := by
  unfold resolveAttrRef
  split_ifs <;> intro c hc
  · exact hr c hc
  · rcases List.mem_append.mp hc with h | h
    · exact ho c h
    · exact hr c h
  · rcases List.mem_append.mp hc with h | h
    · exact hb c h
    · exact hr c h

/-- C1: every reference (media line or URI attribute value) is resolved by
the three-way rule — `http`-prefixed used as-is, `/`-prefixed against the
origin, otherwise against the base directory (origin plus path up to and
including its last slash) — and the same rule applies in both places;
with the spec's two concrete resolution examples. -/
theorem C1_resolution_rule :
    (∀ origin pathname ref,
        resolveMediaRef origin (origin ++ dirPart pathname) ref =
          resolveSpecRule origin pathname ref)
    ∧ (∀ origin pathname ref,
        resolveAttrRef origin (origin ++ dirPart pathname) ref =
          resolveSpecRule origin pathname ref)
    ∧ (∀ origin baseUrl ref,
        resolveMediaRef origin baseUrl ref = resolveAttrRef origin baseUrl ref)
    ∧ rewriteLineL (toL "https://host") (toL "https://host" ++ dirPart (toL "/path/live.m3u8"))
        (toL "segment.ts")
      = toL "/api/proxy-manifest?url=https%3A%2F%2Fhost%2Fpath%2Fsegment.ts"
    ∧ resolveMediaRef (toL "https://host") (toL "https://host" ++ dirPart (toL "/path/live.m3u8"))
        (toL "/seg/1.ts")
      = toL "https://host/seg/1.ts" :=
  ⟨fun _ _ _ => rfl, fun _ _ _ => rfl, fun _ _ _ => rfl, by decide, by decide⟩

/-- C2: every non-blank line not starting with `#` (after trimming) is
replaced wholesale by the proxy-wrapped, percent-encoded resolved URL —
with no exception for already-absolute references. -/
theorem C2_media_line_replaced (origin baseUrl line : List Char)
    (h1 : trimL line ≠ []) (h2 : hasPrefixL (toL "#") (trimL line) = false) :
    rewriteLineL origin baseUrl line =
      toL "/api/proxy-manifest?url=" ++ encodeUC (resolveMediaRef origin baseUrl (trimL line)) := by
  have he : (trimL line).isEmpty = false := by
    cases hcase : trimL line with
    | nil => exact absurd hcase h1
    | cons a as => rfl
  simp [rewriteLineL, he, h2]

theorem C2_media_line_replaced_witness :
    rewriteLineL (toL "https://host") (toL "https://host/path/") (toL "http://other.host/x.ts") =
      toL "/api/proxy-manifest?url=" ++
        encodeUC (resolveMediaRef (toL "https://host") (toL "https://host/path/")
          (trimL (toL "http://other.host/x.ts"))) :=
  C2_media_line_replaced _ _ _ (by decide) (by decide)

/-- C5: an upstream status that is neither 2xx nor 206 is forwarded with
the diagnostic body `Target returned <status>`; the result depends on
neither the body read nor the URL parse. -/
theorem C5_upstream_error (u : List Char) (resp : UpstreamResponse)
    (parseR : Except (List Char) UrlParts)
    (hu : u ≠ []) (h1 : statusOk resp.status = false) (h2 : resp.status ≠ 206) :
    handleProxyManifest (some u) (.ok resp) parseR =
      ⟨resp.status, [], toL "Target returned " ++ (Nat.repr resp.status).data⟩ := by
  have hue : u.isEmpty = false := by
    cases u with
    | nil => exact absurd rfl hu
    | cons a as => rfl
  simp [handleProxyManifest, hue, h1, h2]

theorem C5_upstream_error_witness :
    handleProxyManifest (some (toL "http://h/x.ts"))
        (.ok ⟨403, some (toL "text/plain"), none, none, none, .error (toL "unread")⟩)
        (.error (toL "unparsed")) =
      ⟨403, [], toL "Target returned " ++ (Nat.repr 403).data⟩ :=
  C5_upstream_error _ _ _ (by decide) (by decide) (by decide)

/-- C6: a missing or empty `url` query parameter yields 400 with body
`URL required`, independently of the fetch and parse inputs (no upstream
call can influence the result). -/
theorem C6_missing_url (fetchR : Except (List Char) UpstreamResponse)
    (parseR : Except (List Char) UrlParts) :
    handleProxyManifest none fetchR parseR = ⟨400, [], toL "URL required"⟩
    ∧ handleProxyManifest (some []) fetchR parseR = ⟨400, [], toL "URL required"⟩ :=
  ⟨rfl, rfl⟩

/-- C4 counterexample: a target URL that merely contains `.m3u8` without
ending in it (query string after the name) is classified as manifest text
although the claim's ends-with rule says it must not be. -/
theorem C4_counterexample :
    isManifestResponse (toL "video/mp2t") (toL "https://host/live.m3u8?token=1") = true
    ∧ (listContains (toL "mpegurl") (toL "video/mp2t")
        || endsWithL (toL ".m3u8") (toL "https://host/live.m3u8?token=1")) = false := by
  decide

/-- C4 (amended): the response is classified as manifest text iff the
Content-Type contains `mpegurl` or the target URL CONTAINS `.m3u8`
(the `apple.mpegurl` clause is redundant); otherwise the body is
forwarded unchanged. -/
theorem C4_classification :
    (∀ ct url, isManifestResponse ct url =
        (listContains (toL "mpegurl") ct || listContains (toL ".m3u8") url))
    ∧ (∀ u resp parseR b, u ≠ [] →
        (statusOk resp.status = true ∨ resp.status = 206) →
        isManifestResponse (resp.contentType.getD []) u = false →
        resp.bodyResult = .ok b →
        (handleProxyManifest (some u) (.ok resp) parseR).body = b) := by
  constructor
  · intro ct url
    unfold isManifestResponse
    cases happ : listContains (toL "apple.mpegurl") ct
    · simp [happ]
    · have hm : listContains (toL "mpegurl") ct = true :=
        listContains_sub (toL "apple.") (toL "mpegurl") ct happ
      simp [hm]
  · intro u resp parseR b hu hok hclass hbody
    have hue : u.isEmpty = false := by
      cases u with
      | nil => exact absurd rfl hu
      | cons a as => rfl
    have hg : (!statusOk resp.status && resp.status != 206) = false := by
      rcases hok with h | h
      · simp [h]
      · simp [h]
    simp [handleProxyManifest, hue, hg, hclass, hbody]

theorem C4_classification_witness :
    (handleProxyManifest (some (toL "http://h/x.ts"))
        (.ok ⟨200, some (toL "video/mp2t"), none, none, none, .ok (toL "SEGDATA")⟩)
        (.error (toL "unused"))).body = toL "SEGDATA" :=
  C4_classification.2 _ _ _ _ (by decide) (Or.inl (by decide)) (by decide) rfl

/-- C7 counterexample: with a 206 upstream response carrying a
Content-Range header, the proxy's response status is 200 — the handler
never copies the upstream 206 status as the claim asserts. -/
theorem C7_counterexample :
    (handleProxyManifest (some (toL "http://h/seg.ts"))
        (.ok ⟨206, some (toL "video/mp2t"), some (toL "bytes 0-1023/2048"),
              some (toL "bytes"), some (toL "1024"), .ok (toL "DATA")⟩)
        (.ok ⟨toL "http://h", toL "/seg.ts"⟩)).status = 200
    ∧ (handleProxyManifest (some (toL "http://h/seg.ts"))
        (.ok ⟨206, some (toL "video/mp2t"), some (toL "bytes 0-1023/2048"),
              some (toL "bytes"), some (toL "1024"), .ok (toL "DATA")⟩)
        (.ok ⟨toL "http://h", toL "/seg.ts"⟩)).status ≠ 206 := by
  decide

/-- C7 (amended): the caller's Range header is forwarded verbatim on the
upstream request, and Content-Range, Accept-Ranges and Content-Length are
copied verbatim into the response whenever present upstream — but on a
206 upstream response the proxy's own status is the framework default
200, not 206. -/
theorem C7_range_forward_headers :
    (∀ r, (toL "Range", r) ∈ upstreamHeaders (some r))
    ∧ (∀ u resp parts b, u ≠ [] → resp.status = 206 → resp.bodyResult = .ok b →
        (handleProxyManifest (some u) (.ok resp) (.ok parts)).status = 200
        ∧ (∀ v, resp.contentRange = some v →
            (toL "Content-Range", v) ∈ (handleProxyManifest (some u) (.ok resp) (.ok parts)).headers)
        ∧ (∀ v, resp.acceptRanges = some v →
            (toL "Accept-Ranges", v) ∈ (handleProxyManifest (some u) (.ok resp) (.ok parts)).headers)
        ∧ (∀ v, resp.contentLength = some v →
            (toL "Content-Length", v) ∈ (handleProxyManifest (some u) (.ok resp) (.ok parts)).headers)) := by
  constructor
  · intro r
    simp [upstreamHeaders]
  · intro u resp parts b hu h206 hbody
    have hue : u.isEmpty = false := by
      cases u with
      | nil => exact absurd rfl hu
      | cons a as => rfl
    have hg : (!statusOk resp.status && resp.status != 206) = false := by
      simp [h206]
    have hcr : ∀ v, resp.contentRange = some v →
        (toL "Content-Range", v) ∈ passHeaders resp := by
      intro v hv
      simp [passHeaders, hv]
    have har : ∀ v, resp.acceptRanges = some v →
        (toL "Accept-Ranges", v) ∈ passHeaders resp := by
      intro v hv
      simp [passHeaders, hv]
    have hcl : ∀ v, resp.contentLength = some v →
        (toL "Content-Length", v) ∈ passHeaders resp := by
      intro v hv
      simp [passHeaders, hv]
    cases hclass : isManifestResponse (resp.contentType.getD []) u
    · refine ⟨?_, ?_, ?_, ?_⟩ <;>
        simp [handleProxyManifest, hue, hg, hclass, hbody]
      · intro v hv; exact Or.inl (hcr v hv)
      · intro v hv; exact Or.inl (har v hv)
      · intro v hv; exact Or.inl (hcl v hv)
    · refine ⟨?_, ?_, ?_, ?_⟩ <;>
        simp [handleProxyManifest, hue, hg, hclass, hbody]
      · intro v hv; exact Or.inl (hcr v hv)
      · intro v hv; exact Or.inl (har v hv)
      · intro v hv; exact Or.inl (hcl v hv)

theorem C7_range_forward_headers_witness :
    (handleProxyManifest (some (toL "http://h/seg.ts"))
        (.ok ⟨206, some (toL "video/mp2t"), some (toL "bytes 0-1023/2048"),
              none, none, .ok (toL "D")⟩)
        (.ok ⟨toL "http://h", toL "/seg.ts"⟩)).status = 200 ∧
    (toL "Content-Range", toL "bytes 0-1023/2048") ∈
      (handleProxyManifest (some (toL "http://h/seg.ts"))
        (.ok ⟨206, some (toL "video/mp2t"), some (toL "bytes 0-1023/2048"),
              none, none, .ok (toL "D")⟩)
        (.ok ⟨toL "http://h", toL "/seg.ts"⟩)).headers := by
  have h := C7_range_forward_headers.2 (toL "http://h/seg.ts")
    ⟨206, some (toL "video/mp2t"), some (toL "bytes 0-1023/2048"),
      none, none, .ok (toL "D")⟩
    ⟨toL "http://h", toL "/seg.ts"⟩ (toL "D") (by decide) rfl rfl
  exact ⟨h.1, h.2.1 _ rfl⟩

/-- C9: every exception — the fetch itself, the body read on either
branch, or the URL parse in the manifest branch — lands in the single
catch block as one 500 response whose body is the error's message text. -/
theorem C9_catch_all :
    (∀ u parseR e, u ≠ [] →
        handleProxyManifest (some u) (.error e) parseR = ⟨500, [], e⟩)
    ∧ (∀ u resp parseR e, u ≠ [] →
        (statusOk resp.status = true ∨ resp.status = 206) →
        isManifestResponse (resp.contentType.getD []) u = true →
        resp.bodyResult = .error e →
        handleProxyManifest (some u) (.ok resp) parseR = ⟨500, passHeaders resp, e⟩)
    ∧ (∀ u resp text e, u ≠ [] →
        (statusOk resp.status = true ∨ resp.status = 206) →
        isManifestResponse (resp.contentType.getD []) u = true →
        resp.bodyResult = .ok text →
        handleProxyManifest (some u) (.ok resp) (.error e) = ⟨500, passHeaders resp, e⟩)
    ∧ (∀ u resp parseR e, u ≠ [] →
        (statusOk resp.status = true ∨ resp.status = 206) →
        isManifestResponse (resp.contentType.getD []) u = false →
        resp.bodyResult = .error e →
        handleProxyManifest (some u) (.ok resp) parseR =
          ⟨500, passHeaders resp ++ binaryHeaders (resp.contentType.getD []), e⟩) := by
  have hemp : ∀ u : List Char, u ≠ [] → u.isEmpty = false := by
    intro u hu
    cases u with
    | nil => exact absurd rfl hu
    | cons a as => rfl
  have hguard : ∀ s : Nat, (statusOk s = true ∨ s = 206) →
      (!statusOk s && s != 206) = false := by
    intro s hs
    rcases hs with h | h
    · simp [h]
    · simp [h]
  refine ⟨?_, ?_, ?_, ?_⟩
  · intro u parseR e hu
    simp [handleProxyManifest, hemp u hu]
  · intro u resp parseR e hu hok hclass hbody
    simp [handleProxyManifest, hemp u hu, hguard _ hok, hclass, hbody]
  · intro u resp text e hu hok hclass hbody
    simp [handleProxyManifest, hemp u hu, hguard _ hok, hclass, hbody]
  · intro u resp parseR e hu hok hclass hbody
    simp [handleProxyManifest, hemp u hu, hguard _ hok, hclass, hbody]

theorem C9_catch_all_witness :
    handleProxyManifest (some (toL "http://h/live.m3u8"))
        (.error (toL "getaddrinfo ENOTFOUND h")) (.error (toL "unused")) =
      ⟨500, [], toL "getaddrinfo ENOTFOUND h"⟩ :=
  C9_catch_all.1 (toL "http://h/live.m3u8") (.error (toL "unused"))
    (toL "getaddrinfo ENOTFOUND h") (by decide)

/-- C3: URI attributes in tag lines are rewritten in place — the
`#EXT-X-KEY` example keeps `METHOD=AES-128` untouched and stays a single
line; every `URI="..."` occurrence is independently resolved and replaced
(shown for two occurrences with arbitrary values); tag lines with no
`URI=` attribute and blank lines pass through unchanged. -/
theorem C3_uri_attr_rewrite :
    rewriteLineL (toL "https://host") (toL "https://host/path/")
        (toL "#EXT-X-KEY:METHOD=AES-128,URI=\"key.bin\"")
      = toL "#EXT-X-KEY:METHOD=AES-128,URI=\"/api/proxy-manifest?url=https%3A%2F%2Fhost%2Fpath%2Fkey.bin\""
    ∧ listContains ['\n']
        (rewriteLineL (toL "https://host") (toL "https://host/path/")
          (toL "#EXT-X-KEY:METHOD=AES-128,URI=\"key.bin\"")) = false
    ∧ (∀ origin baseUrl v1 v2, v1 ≠ [] → v2 ≠ [] →
        (∀ c ∈ v1, (c != '"') = true) → (∀ c ∈ v2, (c != '"') = true) →
        replaceURIAttrs (attrRepl origin baseUrl)
            (toL "#E:URI=\"" ++ v1 ++ toL "\",M=1,URI=\"" ++ v2 ++ toL "\"")
          = toL "#E:" ++ attrRepl origin baseUrl v1 ++ toL ",M=1," ++ attrRepl origin baseUrl v2)
    ∧ (∀ origin baseUrl line,
        ((trimL line).isEmpty || hasPrefixL (toL "#") (trimL line)) = true →
        listContains (toL "URI=\"") (trimL line) = false →
        rewriteLineL origin baseUrl line = line) := by
  refine ⟨by decide, by decide, ?_, ?_⟩
  · intro origin baseUrl v1 v2 h1 h2 hq1 hq2
    have e1 : toL "#E:URI=\"" = ['#', 'E', ':', 'U', 'R', 'I', '=', '"'] := by decide
    have e2 : toL "\",M=1,URI=\"" = ['"', ',', 'M', '=', '1', ',', 'U', 'R', 'I', '=', '"'] := by
      decide
    have e3 : toL "\"" = ['"'] := by decide
    have e4 : toL "#E:" = ['#', 'E', ':'] := by decide
    have e5 : toL ",M=1," = [',', 'M', '=', '1', ','] := by decide
    rw [e1, e2, e3, e4, e5]
    simp only [List.append_assoc, List.cons_append, List.nil_append]
    rw [replace_skip _ '#' _ (by decide), replace_skip _ 'E' _ (by decide),
      replace_skip _ ':' _ (by decide), replace_match _ v1 _ h1 hq1,
      replace_skip _ ',' _ (by decide), replace_skip _ 'M' _ (by decide),
      replace_skip _ '=' _ (by decide), replace_skip _ '1' _ (by decide),
      replace_skip _ ',' _ (by decide), replace_match _ v2 _ h2 hq2, replace_nil]
    simp
  · intro origin baseUrl line hcond hnon
    simp [rewriteLineL, hcond, hnon]

theorem C3_uri_attr_rewrite_witness :
    replaceURIAttrs (attrRepl (toL "https://host") (toL "https://host/path/"))
        (toL "#E:URI=\"" ++ toL "k1.bin" ++ toL "\",M=1,URI=\"" ++ toL "k2.bin" ++ toL "\"")
      = toL "#E:" ++ attrRepl (toL "https://host") (toL "https://host/path/") (toL "k1.bin")
          ++ toL ",M=1,"
          ++ attrRepl (toL "https://host") (toL "https://host/path/") (toL "k2.bin") :=
  C3_uri_attr_rewrite.2.2.1 _ _ (toL "k1.bin") (toL "k2.bin")
    (by decide) (by decide) (by decide) (by decide)

/-- C8 counterexample: a body consisting of a single comment line — one
that carries a `URI="..."` attribute — is not returned byte-identical:
the attribute is substituted. -/
theorem C8_counterexample :
    rewriteManifestL (toL "https://h") (toL "/a/b.m3u8")
        (toL "#EXT-X-KEY:METHOD=AES-128,URI=\"k.bin\"")
      ≠ toL "#EXT-X-KEY:METHOD=AES-128,URI=\"k.bin\"" := by
  decide

/-- C8 (amended): a manifest body all of whose lines are blank after
trimming, or start with `#` and contain no `URI="` attribute, is returned
byte-identical (the split on `\n` and rejoin with `\n` is the identity). -/
theorem C8_comment_blank_passthrough (origin pathname text : List Char)
    (h : ∀ line ∈ splitNl text,
        (trimL line).isEmpty = true
        ∨ (hasPrefixL (toL "#") (trimL line) = true
            ∧ listContains (toL "URI=\"") (trimL line) = false)) :
    rewriteManifestL origin pathname text = text := by
  unfold rewriteManifestL
  rw [mapIdOn]
  · exact joinNl_splitNl text
  · intro line hl
    rcases h line hl with h1 | ⟨h2, h3⟩
    · have ht : trimL line = [] := by
        cases hcase : trimL line with
        | nil => rfl
        | cons a as => rw [hcase] at h1; simp at h1
      have hc : listContains (toL "URI=\"") ([] : List Char) = false := by decide
      simp [rewriteLineL, ht, hc]
    · simp [rewriteLineL, h2, h3]

theorem C8_comment_blank_passthrough_witness :
    rewriteManifestL (toL "https://h") (toL "/a/b.m3u8")
        (toL "#EXTM3U\n#EXT-X-VERSION:3\n\n# note")
      = toL "#EXTM3U\n#EXT-X-VERSION:3\n\n# note" :=
  C8_comment_blank_passthrough _ _ _ (by decide)

/-- C10: percent-encoding followed by percent-decoding is the identity on
resolved URLs built from ASCII components, for both the media-line and
the URI-attribute resolution — so the `url` parameter of an emitted
proxy reference decodes back to exactly the resolved absolute URL. -/
theorem C10_encode_decode_roundtrip (origin baseUrl ref : List Char)
    (ho : ∀ c ∈ origin, c.toNat < 128) (hb : ∀ c ∈ baseUrl, c.toNat < 128)
    (hr : ∀ c ∈ ref, c.toNat < 128) :
    pctDecode (encodeUC (resolveMediaRef origin baseUrl ref)) =
      some (resolveMediaRef origin baseUrl ref)
    ∧ pctDecode (encodeUC (resolveAttrRef origin baseUrl ref)) =
      some (resolveAttrRef origin baseUrl ref) :=
  ⟨pctDecode_encodeUC _ (ascii_resolveMedia origin baseUrl ref ho hb hr),
   pctDecode_encodeUC _ (ascii_resolveAttr origin baseUrl ref ho hb hr)⟩

theorem C10_encode_decode_roundtrip_witness :
    pctDecode (encodeUC (resolveMediaRef (toL "https://host") (toL "https://host/path/")
        (toL "segment.ts"))) =
      some (resolveMediaRef (toL "https://host") (toL "https://host/path/") (toL "segment.ts"))
    ∧ pctDecode (encodeUC (resolveAttrRef (toL "https://host") (toL "https://host/path/")
        (toL "segment.ts"))) =
      some (resolveAttrRef (toL "https://host") (toL "https://host/path/") (toL "segment.ts")) :=
  C10_encode_decode_roundtrip (toL "https://host") (toL "https://host/path/") (toL "segment.ts")
    (by decide) (by decide) (by decide)
